import Mathlib

set_option maxHeartbeats 1000000
set_option maxRecDepth 8000

/-!
Verification of the abc template-engine sources against their natural-language
specification.  The Go sources are shallowly embedded: pure fragments become
Lean functions, OS interaction (os.Stat, git subprocess probing, file reads)
becomes explicit environment arguments, and fallible Go functions return
`Except`/`Option`.  Paths use the Unix separator, matching the environment the
tests of the repository run in.
-/

namespace Spec2Proof

/-! ### Go `path/filepath` primitives (Unix separator)

These model the Go standard library functions used by the sources:
`filepath.IsAbs`, `filepath.Clean`, `filepath.Join`, `filepath.Rel` and
`filepath.ToSlash`.  `Clean` is modelled on the list of slash-separated
components with the usual lexical stack processing; `Rel` drops the common
component prefix and backtracks with `..` segments, exactly as the Go
implementation does for cleaned paths. -/

def splitSlashAux : List Char → List Char → List String
  | [], acc => [String.mk acc.reverse]
  | c :: rest, acc =>
    if c = '/' then String.mk acc.reverse :: splitSlashAux rest []
    else splitSlashAux rest (c :: acc)

def splitOnSlash (s : String) : List String := splitSlashAux s.data []

def isAbs (s : String) : Bool :=
  match s.data with
  | c :: _ => c = '/'
  | [] => false

def cleanPush (abs : Bool) (stack : List String) (e : String) : List String :=
  if e = "" ∨ e = "." then stack
  else if e = ".." then
    match stack with
    | [] => if abs then [] else [".."]
    | top :: rest => if top = ".." then ".." :: top :: rest else rest
  else e :: stack

def cleanParts (abs : Bool) (parts : List String) : List String :=
  (parts.foldl (cleanPush abs) []).reverse

def joinSlash : List String → String
  | [] => ""
  | [x] => x
  | x :: y :: rest => x ++ "/" ++ joinSlash (y :: rest)

def clean (p : String) : String :=
  let parts := cleanParts (isAbs p) (splitOnSlash p)
  if isAbs p then "/" ++ joinSlash parts
  else if parts = [] then "." else joinSlash parts

def goJoin (a b : String) : String :=
  if a = "" && b = "" then ""
  else if a = "" then clean b
  else if b = "" then clean a
  else clean (a ++ "/" ++ b)

def toSlash (p : String) : String := p

def dropCommon : List String → List String → List String × List String
  | a :: restA, b :: restB =>
    if a = b then dropCommon restA restB else (a :: restA, b :: restB)
  | restA, restB => (restA, restB)

def relParts (p : String) : List String := cleanParts (isAbs p) (splitOnSlash p)

def goRel (base targ : String) : Option String :=
  if isAbs base ≠ isAbs targ then none
  else if relParts base = relParts targ then some "."
  else if (dropCommon (relParts base) (relParts targ)).1.head? = some ".." then none
  else some (joinSlash
    (List.replicate (dropCommon (relParts base) (relParts targ)).1.length ".." ++
      (dropCommon (relParts base) (relParts targ)).2))

/-! ### templatesource: DownloadMetadata, canonicalize and LocalDownloader.Download

From `src/templates/common/templatesource/download.go` and
`src/unnamed/part_000`.  The git subprocess helpers `git.Workspace`,
`gitCanonicalVersion` and `gitTemplateVars` are code of the repository that is
not under src/; they are supplied as an abstract environment. -/

structure LocalDownloader where
  SrcPath : String
  allowDirty : Bool := false
deriving DecidableEq

structure DownloaderVars where
  GitTag : String
  GitSHA : String
  GitShortSHA : String
deriving DecidableEq

structure DownloadMetadata where
  IsCanonical : Bool
  CanonicalSource : String
  LocationType : String
  HasVersion : Bool
  Version : String
  Vars : DownloaderVars
deriving DecidableEq

/-- Modelled from the spec: the version-control probing helpers
`git.Workspace` (returns the enclosing workspace root, if any),
`gitCanonicalVersion` (returns the workspace's canonical git version) and
`gitTemplateVars` (returns the `_git_tag`/`_git_sha`/`_git_short_sha`
variables) are not under src/; each is an abstract environment function that
may also fail, as the Go functions return errors. -/
structure GitEnv where
  workspace : String → Except String (Option String)
  canonicalVersion : String → Bool → Except String String
  templateVars : String → Except String DownloaderVars

def LocTypeLocalGit : String := "local_git"

def absDestOf (cwd dest : String) : String :=
  if isAbs dest then dest else goJoin cwd dest

def canonicalize (env : GitEnv) (cwd src dest : String) (allowDirty : Bool) :
    Except String (String × String × String) :=
  match env.workspace src with
  | .error e => .error e
  | .ok srcWs =>
    match env.workspace (absDestOf cwd dest) with
    | .error e => .error e
    | .ok destWs =>
      match srcWs, destWs with
      | some sourceGitWorkspace, some destGitWorkspace =>
        if sourceGitWorkspace = destGitWorkspace then
          match goRel (absDestOf cwd dest) src with
          | none => .error "filepath.Rel: cannot make src relative to dest"
          | some out =>
            match env.canonicalVersion sourceGitWorkspace allowDirty with
            | .error e => .error e
            | .ok version => .ok (toSlash out, version, LocTypeLocalGit)
        else .ok ("", "", "")
      | _, _ => .ok ("", "", "")

def LocalDownloader.Download (env : GitEnv) (d : LocalDownloader) (cwd destDir : String) :
    Except String DownloadMetadata :=
  match env.templateVars d.SrcPath with
  | .error e => .error e
  | .ok gitVars =>
    match canonicalize env cwd d.SrcPath destDir d.allowDirty with
    | .error e => .error e
    | .ok res =>
      .ok { IsCanonical := res.1 != "", CanonicalSource := res.1,
            LocationType := res.2.2,
            HasVersion := res.2.1 != "", Version := res.2.1,
            Vars := gitVars }

/-- Go compares the two workspaces only after checking both paths are inside
one; this predicate captures `templateIsGit && destIsGit && srcWs == destWs`. -/
def sameWorkspace : Option String → Option String → Bool
  | some a, some b => a == b
  | _, _ => false

/-! ### templatesource: localSourceParser.sourceParse

From `src/unnamed/part_000`.  `os.Stat` is modelled as an environment function
from absolute path to an outcome; `common.IsStatNotExistErr` (not under src/)
is captured by the dedicated `notExist` outcome. -/

/-- Outcome of the `os.Stat` call, supplied as an environment. -/
inductive StatResult where
  | notExist
  | statFailed (msg : String)
  | file
  | dir
deriving DecidableEq

/-- Result of `localSourceParser.sourceParse`: the Go function returns
`(Downloader, bool, error)`; `noMatch` is `(nil, false, nil)`. -/
inductive SourceParseResult where
  | noMatch
  | failed (msg : String)
  | matched (d : LocalDownloader)
deriving DecidableEq

def absSourceOf (cwd source : String) : String :=
  if isAbs source then source else goJoin cwd source

def sourceParse (stat : String → StatResult) (cwd source : String) : SourceParseResult :=
  let absSource := absSourceOf cwd source
  match stat absSource with
  | .notExist => .noMatch
  | .statFailed m => .failed ("Stat(): " ++ m)
  | .file => .noMatch
  | .dir => .matched { SrcPath := absSource }

/-! ### render: actionStringReplace

From `src/templates/common/render/action_stringreplace.go`.  The Go code
expands each `(to_replace, with)` pair with `parseAndExecuteGoTmpl`, builds a
single `strings.NewReplacer` from the flattened argument list, and hands
`replacer.Replace` to `walkAndModify`.  `strings.NewReplacer` is embedded from
the Go standard library's generic replacer: a single left-to-right pass where,
at each position, the earliest-listed pattern that matches there fires (an
empty pattern matches everywhere but is suppressed immediately after an empty
match, as in `genericReplacer.WriteString`). -/

def findPair (pairs : List (String × String)) (ignoreEmpty : Bool)
    (rest : List Char) : Option (String × String) :=
  pairs.find? (fun pr => !(ignoreEmpty && pr.1.data.isEmpty) && pr.1.data.isPrefixOf rest)

def replaceAux (pairs : List (String × String)) : List Char → List Char
  | [] =>
    match findPair pairs false [] with
    | some (_, rep) => rep.data
    | none => []
  | c :: rest =>
    match findPair pairs false (c :: rest) with
    | some (pat, rep) =>
      if pat.data = [] then
        rep.data ++
          match findPair pairs true (c :: rest) with
          | some (pat2, rep2) =>
            rep2.data ++ replaceAux pairs (List.drop (pat2.data.length - 1) rest)
          | none => c :: replaceAux pairs rest
      else rep.data ++ replaceAux pairs (List.drop (pat.data.length - 1) rest)
    | none => c :: replaceAux pairs rest
termination_by s => s.length
decreasing_by
  all_goals simp_wf
  all_goals omega

/-- strings.NewReplacer(replacerArgs...).Replace, for the pair list built by
actionStringReplace.  The scan starts each position in the not-after-an-empty-
match state; an empty match emits its replacement and the scan retries the
same position ignoring empty patterns, exactly as in the Go loop. -/
def replacerReplace (pairs : List (String × String)) (s : String) : String :=
  String.mk (replaceAux pairs s.data)

/-- model.ConfigPos: YAML position attached to every parsed field. -/
structure ConfigPos where
  line : Nat := 0
  col : Nat := 0
deriving DecidableEq

/-- model.String: a raw string plus its YAML position. -/
structure ModelString where
  pos : ConfigPos := {}
  val : String
deriving DecidableEq

structure StringReplaceEntry where
  ToReplace : ModelString
  With : ModelString
deriving DecidableEq

structure StringReplace where
  Paths : List ModelString
  Replacements : List StringReplaceEntry
deriving DecidableEq

/-- Expansion of one replacement entry: toReplace first, then with, each via
parseAndExecuteGoTmpl against the step scope (the expander itself is an
abstract argument; its internals do not decide this claim). -/
def expandPair {α : Type} (goTmpl : α → String → Except String String) (scope : α)
    (r : StringReplaceEntry) : Except String (String × String) := do
  let toReplace ← goTmpl scope r.ToReplace.val
  let replaceWith ← goTmpl scope r.With.val
  pure (toReplace, replaceWith)

/-- Modelled from the spec: the path resolution of §4.3 — expand, then reject
absolute paths and `..` segments — performed by walkAndModify, which is
repository code not under src/. -/
def resolvePath (p : String) : Except String String :=
  if isAbs p then .error "ErrPathUnsafe: absolute path"
  else if (splitOnSlash p).any (fun e => e = "..") then .error "ErrPathUnsafe: dot-dot"
  else .ok (clean p)

def expandAndResolve {α : Type} (goTmpl : α → String → Except String String) (scope : α)
    (p : ModelString) : Except String String := do
  resolvePath (← goTmpl scope p.val)

/-- A file (given by its cleaned relative path) lies under a resolved action
path. -/
def underPath (root file : String) : Bool :=
  root = "." || file = root || (root ++ "/").data.isPrefixOf file.data

/-- Modelled from the spec: walkAndModify (§4.3) — for each resolved path,
enumerate every file under it in the scratch tree, read its bytes, apply the
caller-supplied transform and write the result back.  The scratch tree is a
list of (relative path, contents) pairs. -/
def walkAndModify {α : Type} (goTmpl : α → String → Except String String) (scope : α)
    (paths : List ModelString) (transform : String → String)
    (files : List (String × String)) : Except String (List (String × String)) :=
  match paths.mapM (expandAndResolve goTmpl scope) with
  | .error e => .error e
  | .ok resolved =>
    .ok (resolved.foldl
      (fun fs root => fs.map (fun fc => if underPath root fc.1 then (fc.1, transform fc.2) else fc))
      files)

def actionStringReplace {α : Type} (goTmpl : α → String → Except String String) (scope : α)
    (sr : StringReplace) (files : List (String × String)) :
    Except String (List (String × String)) :=
  match sr.Replacements.mapM (expandPair goTmpl scope) with
  | .error e => .error e
  | .ok replacerArgs =>
    walkAndModify goTmpl scope sr.Paths (replacerReplace replacerArgs) files

/-! ### goldentest model (v1alpha1): VarValue.Validate and Test.Validate

From `src/templates/model/goldentest/v1alpha1/goldentest.go`.  Go's
`errors.Join` is modelled as concatenation of violation-message lists (a nil
error is the empty list). -/

/-- Modelled from the spec: model.NotZeroModel, not under src/ — reports one
violation exactly when a required field is empty ("every required field
non-empty", §4.1); its message carries the field name. -/
def NotZeroModel (_pos : ConfigPos) (s : ModelString) (fieldName : String) : List String :=
  if s.val = "" then ["field " ++ fieldName ++ " is required"] else []

structure VarValue where
  Pos : ConfigPos := {}
  Name : ModelString
  Value : ModelString
deriving DecidableEq

def VarValue.Validate (i : VarValue) : List String :=
  NotZeroModel i.Pos i.Name "name" ++ NotZeroModel i.Pos i.Value "value"

/-- Modelled from the spec: model.ValidateEach, not under src/ — validates
every element and joins all their violations ("Validation errors are
collected across all fields before being reported", §7). -/
def ValidateEach (l : List VarValue) : List String :=
  (l.map VarValue.Validate).flatten

structure Test where
  Pos : ConfigPos := {}
  Inputs : List VarValue
deriving DecidableEq

def Test.Validate (t : Test) : List String :=
  ValidateEach t.Inputs

/-! ### goldentest verify: getStdoutDiff

From `src/templates/commands/goldentest/verify.go`.  `os.ReadFile` outcomes
are modelled by `ReadResult`; `diffmatchpatch.DiffMain` is external library
code, modelled by the pair of its inputs — `hasDiff` holds exactly when the
two texts differ, which is the observable the caller uses. -/

inductive ReadResult where
  | ok (content : String)
  | notExist
  | failed (msg : String)
deriving DecidableEq

def DiffMain (text1 text2 : String) : String × String := (text1, text2)

def hasDiff (diffs : String × String) : Bool := diffs.1 != diffs.2

def readOrEmpty : ReadResult → Except String String
  | .ok c => .ok c
  | .notExist => .ok ""
  | .failed m => .error ("failed to read: " ++ m)

def getStdoutDiff (goldenStdout tempStdout : ReadResult) :
    Except String (String × String) :=
  match readOrEmpty goldenStdout with
  | .error e => .error e
  | .ok g =>
    match readOrEmpty tempStdout with
    | .error e => .error e
    | .ok t => .ok (DiffMain t g)

def contentOrEmpty : ReadResult → String
  | .ok c => c
  | _ => ""

/-! ### goldentest verify: addTestFiles and the per-test comparison loop

From `src/templates/commands/goldentest/verify.go` (`VerifyCommand.Run`,
`addTestFiles`).  A rendered tree is a list of (relative slash path, contents)
pairs; the recursive walk enumerates exactly the keys of that list. -/

def ABCInternalDir : String := ".abc"

def ABCInternalStdout : String := "stdout"

/-- Modelled from the spec: common.IsReservedInDest, not under src/ — a
destination-relative path is reserved exactly when its top-level component is
the `.abc` directory ("Reserved paths. `.abc/` at the top of the destination
is reserved for engine use", §6). -/
def IsReservedInDest (rel : String) : Bool :=
  (splitOnSlash rel).head? = some ABCInternalDir

/-- addTestFiles: add every non-reserved file path of one rendered tree to the
accumulated set (the Go map; modelled as a duplicate-free list). -/
def addTestFiles (fileSet : List String) (dirFiles : List String) : List String :=
  dirFiles.foldl
    (fun s f => if IsReservedInDest f then s else if f ∈ s then s else s ++ [f]) fileSet

/-- Lexicographic byte order used by Go's sort.Strings (on the ASCII paths
involved, bytewise and characterwise order coincide). -/
def charListLe : List Char → List Char → Bool
  | [], _ => true
  | _ :: _, [] => false
  | a :: restA, b :: restB =>
    if a = b then charListLe restA restB
    else decide (a < b)

def strLe (a b : String) : Bool := charListLe a.data b.data

def sortStrings (l : List String) : List String :=
  l.insertionSort (fun a b => strLe a b = true)

def stdoutRelPath : String := ABCInternalDir ++ "/" ++ ABCInternalStdout

def readStdout (files : List (String × String)) : ReadResult :=
  match List.lookup stdoutRelPath files with
  | some c => .ok c
  | none => .notExist

/-- One relPath comparison of the Run loop: a file readable on only one side
is a mismatch, otherwise the contents are diffed. -/
def fileMismatch (golden temp : List (String × String)) (p : String) : Bool :=
  match List.lookup p golden, List.lookup p temp with
  | some gc, some tc => hasDiff (DiffMain tc gc)
  | _, _ => true

structure TestCaseOutcome where
  relPaths : List String
  mismatches : List String
  stdoutMismatch : Bool
deriving DecidableEq

/-- The comparison phase of VerifyCommand.Run for one test case: collect the
union of file paths of the golden data dir and the freshly rendered temp data
dir, sort, compare each, and compare the recorded stdout separately. -/
def verifyTestCase (golden temp : List (String × String)) : TestCaseOutcome :=
  let fileSet := addTestFiles (addTestFiles [] (golden.map Prod.fst)) (temp.map Prod.fst)
  let relPaths := sortStrings fileSet
  { relPaths := relPaths
    mismatches := relPaths.filter (fileMismatch golden temp)
    stdoutMismatch :=
      match getStdoutDiff (readStdout golden) (readStdout temp) with
      | .ok d => hasDiff d
      | .error _ => true }

/-! ### render: writeManifest

The manifest writer (`templates/common/render/manifest.go`) is repository code
not under src/; only its test `src/templates/common/render/manifest_test.go`
is present.  The writer is modelled from the spec (§4.6) and checked below
against the expected destination contents of `TestWriteManifest`. -/

/-- Go time.Time: an absolute instant (unix seconds plus nanoseconds) carried
together with its display-zone offset.  `utc` keeps the instant and switches
the display zone to UTC, as `Time.UTC()` does. -/
structure GoTime where
  instantSec : Int
  nsec : Nat
  offsetMin : Int
deriving DecidableEq

def GoTime.utc (t : GoTime) : GoTime := { t with offsetMin := 0 }

/-- Proleptic-Gregorian civil date from days since the Unix epoch. -/
def civilFromDays (z0 : Int) : Int × Nat × Nat :=
  let z := z0 + 719468
  let era := Int.ediv (if 0 ≤ z then z else z - 146096) 146097
  let doe := (z - era * 146097).toNat
  let yoe := (doe - doe / 1460 + doe / 36524 - doe / 146096) / 365
  let doy := doe - (365 * yoe + yoe / 4 - yoe / 100)
  let mp := (5 * doy + 2) / 153
  let d := doy - (153 * mp + 2) / 5 + 1
  let m := if mp < 10 then mp + 3 else mp - 9
  ((yoe : Int) + era * 400 + (if m ≤ 2 then 1 else 0), m, d)

/-- Days since the Unix epoch from a civil date (inverse of civilFromDays);
used to build concrete times the way time.Date does. -/
def daysFromCivil (y0 : Int) (m d : Nat) : Int :=
  let y := y0 - (if m ≤ 2 then 1 else 0)
  let era := Int.ediv (if 0 ≤ y then y else y - 399) 400
  let yoe := (y - era * 400).toNat
  let doy := (153 * (if 2 < m then m - 3 else m + 9) + 2) / 5 + d - 1
  let doe := yoe * 365 + yoe / 4 - yoe / 100 + doy
  era * 146097 + (doe : Int) - 719468

/-- time.Date(y, mo, d, h, mi, s, ns, zone with the given offset). -/
def mkGoTime (y : Int) (mo d h mi s ns : Nat) (offsetMin : Int) : GoTime :=
  { instantSec :=
      daysFromCivil y mo d * 86400 + ((h * 3600 + mi * 60 + s : Nat) : Int) - offsetMin * 60
    nsec := ns
    offsetMin := offsetMin }

def pad2 (n : Nat) : String := if n < 10 then "0" ++ toString n else toString n

def pad9 (n : Nat) : String :=
  String.mk (List.replicate (9 - (toString n).length) '0') ++ toString n

def offsetSuffix (offsetMin : Int) : String :=
  if offsetMin = 0 then "Z"
  else
    (if offsetMin < 0 then "-" else "+") ++
      pad2 (offsetMin.natAbs / 60) ++ ":" ++ pad2 (offsetMin.natAbs % 60)

/-- Modelled from the spec: timestamps are serialized "in UTC with nanosecond
precision" in RFC3339 form — civil fields of the display zone, nine
fractional digits, and the zone suffix. -/
def formatRFC3339Nano (t : GoTime) : String :=
  let localSec := t.instantSec + t.offsetMin * 60
  let days := Int.ediv localSec 86400
  let sod := (Int.emod localSec 86400).toNat
  let ymd := civilFromDays days
  toString ymd.1 ++ "-" ++ pad2 ymd.2.1 ++ "-" ++ pad2 ymd.2.2 ++ "T" ++
    pad2 (sod / 3600) ++ ":" ++ pad2 ((sod / 60) % 60) ++ ":" ++ pad2 (sod % 60) ++
    "." ++ pad9 t.nsec ++ offsetSuffix t.offsetMin

/-- Standard base64 alphabet, as used by the h1: hash scheme. -/
def b64Alphabet : List Char :=
  "ABCDEFGHIJKLMNOPQRSTUVWXYZabcdefghijklmnopqrstuvwxyz0123456789+/".data

def b64Char (n : Nat) : Char := b64Alphabet.getD n (Char.ofNat 63)

def base64Chunks : List Nat → List Char
  | [] => []
  | [a] => [b64Char (a / 4), b64Char ((a % 4) * 16), Char.ofNat 61, Char.ofNat 61]
  | [a, b] =>
    [b64Char (a / 4), b64Char ((a % 4) * 16 + b / 16), b64Char ((b % 16) * 4), Char.ofNat 61]
  | a :: b :: c :: rest =>
    b64Char (a / 4) :: b64Char ((a % 4) * 16 + b / 16) ::
      b64Char ((b % 16) * 4 + c / 64) :: b64Char (c % 64) :: base64Chunks rest

def base64 (bs : List Nat) : String := String.mk (base64Chunks bs)

def asciiBytes (s : String) : List Nat := s.data.map Char.toNat

/-- Modelled from the spec: the location slug is "the canonical source
URL-encoded" — RFC 3986 percent-encoding with upper-case hex over the ASCII
characters appearing in canonical sources. -/
def isUnreservedByte (c : Char) : Bool :=
  (('A' ≤ c ∧ c ≤ 'Z') ∨ ('a' ≤ c ∧ c ≤ 'z') ∨ ('0' ≤ c ∧ c ≤ '9') ∨
    c = '-' ∨ c = '_' ∨ c = '.' ∨ c = '~')

def hexDigitUpper (n : Nat) : Char :=
  if n < 10 then Char.ofNat (48 + n) else Char.ofNat (55 + n)

def urlEncodeChars : List Char → List Char
  | [] => []
  | c :: rest =>
    if isUnreservedByte c then c :: urlEncodeChars rest
    else Char.ofNat 37 :: hexDigitUpper (c.toNat / 16) :: hexDigitUpper (c.toNat % 16) ::
      urlEncodeChars rest

def urlEncode (s : String) : String := String.mk (urlEncodeChars s.data)

/-- Inputs are serialized sorted by input name. -/
def sortByName (inputs : List (String × String)) : List (String × String) :=
  inputs.insertionSort (fun a b => strLe a.1 b.1 = true)

/-- Output hashes are serialized sorted by file path. -/
def sortByFile (outputHashes : List (String × List Nat)) : List (String × List Nat) :=
  outputHashes.insertionSort (fun a b => strLe a.1 b.1 = true)

/-- yaml.v3 scalar rendering for the plain strings involved: empty strings
render quoted, anything else renders as-is. -/
def yamlScalar (s : String) : String := if s = "" then "\"\"" else s

def manifestInputsYAML (inputs : List (String × String)) : String :=
  match sortByName inputs with
  | [] => "inputs: []\n"
  | sorted => "inputs:\n" ++ String.join (sorted.map (fun nv =>
      "    - name: " ++ nv.1 ++ "\n      value: " ++ nv.2 ++ "\n"))

def manifestOutputsYAML (outputHashes : List (String × List Nat)) : String :=
  match sortByFile outputHashes with
  | [] => "output_hashes: []\n"
  | sorted => "output_hashes:\n" ++ String.join (sorted.map (fun fh =>
      "    - file: " ++ fh.1 ++ "\n      hash: h1:" ++ base64 fh.2 ++ "\n"))

/-- Modelled from the spec: the parameters of writeManifest (§4.6) — injected
clock, destination contents, download metadata, dry-run flag, inputs, output
hashes; the template directory hash (whose computing code is also absent) is
carried as the already-computed h1: string. -/
structure WriteManifestParams where
  clock : GoTime
  destDirContents : List (String × String)
  dlMeta : DownloadMetadata
  dryRun : Bool
  inputs : List (String × String)
  outputHashes : List (String × List Nat)
  templateDirhash : String

def manifestLocationSlug (meta : DownloadMetadata) : String :=
  if meta.IsCanonical then urlEncode meta.CanonicalSource else "nolocation"

def manifestFileName (p : WriteManifestParams) : String :=
  ".abc/manifest_" ++ manifestLocationSlug p.dlMeta ++ "_" ++
    formatRFC3339Nano p.clock.utc ++ ".lock.yaml"

def manifestYAML (p : WriteManifestParams) : String :=
  "# Generated by the \"abc templates\" command. Do not modify.\n" ++
  "api_version: cli.abcxyz.dev/v1beta3\n" ++
  "kind: Manifest\n" ++
  "creation_time: " ++ formatRFC3339Nano p.clock.utc ++ "\n" ++
  "modification_time: " ++ formatRFC3339Nano p.clock.utc ++ "\n" ++
  "template_location: " ++ yamlScalar p.dlMeta.CanonicalSource ++ "\n" ++
  "location_type: " ++ yamlScalar p.dlMeta.LocationType ++ "\n" ++
  "template_version: " ++ yamlScalar p.dlMeta.Version ++ "\n" ++
  "template_dirhash: " ++ p.templateDirhash ++ "\n" ++
  manifestInputsYAML p.inputs ++
  manifestOutputsYAML p.outputHashes

/-- Modelled from the spec: writeManifest (§4.6) — writes the YAML manifest
under `.abc/` in the destination, named by location slug and timestamp;
dry runs write nothing.  The destination is the list of its files. -/
def writeManifest (p : WriteManifestParams) : List (String × String) :=
  if p.dryRun then p.destDirContents
  else p.destDirContents ++ [(manifestFileName p, manifestYAML p)]

/-- The simple_success_canonical case of TestWriteManifest
(src/templates/common/render/manifest_test.go). -/
def manifestParamsCanonical : WriteManifestParams :=
  { clock := mkGoTime 2023 12 8 15 59 2 13 (-480)
    destDirContents := [("a.txt", "some other stuff")]
    dlMeta := { IsCanonical := true, CanonicalSource := "github.com/foo/bar",
                LocationType := "remote_git", HasVersion := true, Version := "v1.2.3",
                Vars := ⟨"", "", ""⟩ }
    dryRun := false
    inputs := [("pizza", "hawaiian"), ("pineapple", "deal with it")]
    outputHashes := [("a.txt", asciiBytes "fake_output_hash_32_bytes_sha256")]
    templateDirhash := "h1:uh/nUYc3HpipWEon9kYOsvSrEadfu8Q9TdfBuHcnF3o=" }

/-- The simple_success_non_canonical case of TestWriteManifest. -/
def manifestParamsNonCanonical : WriteManifestParams :=
  { clock := mkGoTime 2023 12 8 15 59 2 13 (-480)
    destDirContents := [("a.txt", "some other stuff")]
    dlMeta := { IsCanonical := false, CanonicalSource := "", LocationType := "",
                HasVersion := false, Version := "", Vars := ⟨"", "", ""⟩ }
    dryRun := false
    inputs := [("pizza", "hawaiian"), ("pineapple", "deal with it")]
    outputHashes := [("a.txt", asciiBytes "fake_output_hash_32_bytes_sha256")]
    templateDirhash := "h1:uh/nUYc3HpipWEon9kYOsvSrEadfu8Q9TdfBuHcnF3o=" }

/-- The dryrun_no_output case of TestWriteManifest. -/
def manifestParamsDryRun : WriteManifestParams :=
  { clock := mkGoTime 2023 12 8 15 59 2 13 (-480)
    destDirContents := [("a.txt", "some other stuff")]
    dlMeta := { IsCanonical := false, CanonicalSource := "github.com/foo/bar",
                LocationType := "", HasVersion := false, Version := "",
                Vars := ⟨"", "", ""⟩ }
    dryRun := true
    inputs := [("pizza", "hawaiian"), ("pineapple", "deal with it")]
    outputHashes := [("a.txt", asciiBytes "fake_output_hash_32_bytes_sha256")]
    templateDirhash := "h1:uh/nUYc3HpipWEon9kYOsvSrEadfu8Q9TdfBuHcnF3o=" }

/-- The manifest body TestWriteManifest expects for simple_success_canonical. -/
def expectedCanonicalYAML : String :=
  "# Generated by the \"abc templates\" command. Do not modify.\n" ++
  "api_version: cli.abcxyz.dev/v1beta3\n" ++
  "kind: Manifest\n" ++
  "creation_time: 2023-12-08T23:59:02.000000013Z\n" ++
  "modification_time: 2023-12-08T23:59:02.000000013Z\n" ++
  "template_location: github.com/foo/bar\n" ++
  "location_type: remote_git\n" ++
  "template_version: v1.2.3\n" ++
  "template_dirhash: h1:uh/nUYc3HpipWEon9kYOsvSrEadfu8Q9TdfBuHcnF3o=\n" ++
  "inputs:\n" ++
  "    - name: pineapple\n" ++
  "      value: deal with it\n" ++
  "    - name: pizza\n" ++
  "      value: hawaiian\n" ++
  "output_hashes:\n" ++
  "    - file: a.txt\n" ++
  "      hash: h1:ZmFrZV9vdXRwdXRfaGFzaF8zMl9ieXRlc19zaGEyNTY=\n"

/-- The manifest body TestWriteManifest expects for simple_success_non_canonical. -/
def expectedNonCanonicalYAML : String :=
  "# Generated by the \"abc templates\" command. Do not modify.\n" ++
  "api_version: cli.abcxyz.dev/v1beta3\n" ++
  "kind: Manifest\n" ++
  "creation_time: 2023-12-08T23:59:02.000000013Z\n" ++
  "modification_time: 2023-12-08T23:59:02.000000013Z\n" ++
  "template_location: \"\"\n" ++
  "location_type: \"\"\n" ++
  "template_version: \"\"\n" ++
  "template_dirhash: h1:uh/nUYc3HpipWEon9kYOsvSrEadfu8Q9TdfBuHcnF3o=\n" ++
  "inputs:\n" ++
  "    - name: pineapple\n" ++
  "      value: deal with it\n" ++
  "    - name: pizza\n" ++
  "      value: hawaiian\n" ++
  "output_hashes:\n" ++
  "    - file: a.txt\n" ++
  "      hash: h1:ZmFrZV9vdXRwdXRfaGFzaF8zMl9ieXRlc19zaGEyNTY=\n"

/-! Helper lemmas about the path primitives. -/

theorem cleanPush_ne_empty (abs : Bool) (stack : List String) (e : String)
    (hs : ∀ x ∈ stack, x ≠ "") : ∀ y ∈ cleanPush abs stack e, y ≠ "" := by
  intro y hy
  unfold cleanPush at hy
  by_cases h1 : e = "" ∨ e = "."
  · rw [if_pos h1] at hy; exact hs y hy
  · rw [if_neg h1] at hy
    by_cases h2 : e = ".."
    · rw [if_pos h2] at hy
      cases stack with
      | nil =>
        cases abs with
        | true => simp at hy
        | false => simp at hy; subst hy; decide
      | cons top rest =>
        dsimp only at hy
        by_cases h3 : top = ".."
        · rw [if_pos h3] at hy
          rcases List.mem_cons.mp hy with h | h
          · subst h; decide
          · exact hs y h
        · rw [if_neg h3] at hy
          exact hs y (List.mem_cons_of_mem _ hy)
    · rw [if_neg h2] at hy
      rcases List.mem_cons.mp hy with h | h
      · subst h; intro hcon; exact h1 (Or.inl hcon)
      · exact hs y h

theorem foldl_cleanPush_ne_empty (abs : Bool) :
    ∀ (parts stack : List String), (∀ x ∈ stack, x ≠ "") →
      ∀ x ∈ parts.foldl (cleanPush abs) stack, x ≠ "" := by
  intro parts
  induction parts with
  | nil => intro stack hs x hx; exact hs x hx
  | cons e rest ih =>
    intro stack hs x hx
    exact ih (cleanPush abs stack e) (cleanPush_ne_empty abs stack e hs) x hx

theorem cleanParts_ne_empty {abs : Bool} {parts : List String} {x : String}
    (hx : x ∈ cleanParts abs parts) : x ≠ "" := by
  unfold cleanParts at hx
  exact foldl_cleanPush_ne_empty abs parts [] (by simp) x (List.mem_reverse.mp hx)

theorem dropCommon_eq_nil_nil :
    ∀ a b : List String, dropCommon a b = ([], []) → a = b := by
  intro a
  induction a with
  | nil =>
    intro b h
    cases b with
    | nil => rfl
    | cons y ys => simp [dropCommon] at h
  | cons x xs ih =>
    intro b h
    cases b with
    | nil => simp [dropCommon] at h
    | cons y ys =>
      by_cases hxy : x = y
      · subst hxy
        simp only [dropCommon, if_pos rfl] at h
        rw [ih ys h]
      · simp [dropCommon, hxy] at h

theorem dropCommon_snd_subset :
    ∀ a b : List String, ∀ x ∈ (dropCommon a b).2, x ∈ b := by
  intro a
  induction a with
  | nil =>
    intro b x hx
    cases b with
    | nil => simp [dropCommon] at hx
    | cons y ys => simp only [dropCommon] at hx; exact hx
  | cons e es ih =>
    intro b x hx
    cases b with
    | nil => simp [dropCommon] at hx
    | cons y ys =>
      by_cases hxy : e = y
      · subst hxy
        simp only [dropCommon, if_pos rfl] at hx
        exact List.mem_cons_of_mem _ (ih ys x hx)
      · simp only [dropCommon, if_neg hxy] at hx
        exact hx

theorem joinSlash_ne_empty :
    ∀ l : List String, l ≠ [] → (∀ x ∈ l, x ≠ "") → joinSlash l ≠ "" := by
  intro l
  match l with
  | [] => simp
  | [x] =>
    intro _ h
    simpa [joinSlash] using h x (by simp)
  | x :: y :: rest =>
    intro _ _ hcon
    have hlen := congrArg String.length hcon
    simp only [joinSlash, String.length_append] at hlen
    have h1 : ("/" : String).length = 1 := rfl
    have h0 : ("" : String).length = 0 := rfl
    rw [h1, h0] at hlen
    omega

theorem goRel_ne_empty {base targ r : String} (h : goRel base targ = some r) : r ≠ "" := by
  unfold goRel at h
  split at h
  · simp at h
  · split at h
    next heq =>
      have hr := Option.some.inj h
      subst hr
      decide
    next hne =>
      split at h
      · simp at h
      next hdd =>
        have hr := Option.some.inj h
        subst hr
        apply joinSlash_ne_empty
        · intro hnil
          rcases List.append_eq_nil.mp hnil with ⟨h1, h2⟩
          have hb1 : (dropCommon (relParts base) (relParts targ)).1 = [] :=
            List.length_eq_zero.mp (by simpa using congrArg List.length h1)
          have hdc : dropCommon (relParts base) (relParts targ)
              = ((dropCommon (relParts base) (relParts targ)).1,
                 (dropCommon (relParts base) (relParts targ)).2) := rfl
          rw [hb1, h2] at hdc
          exact hne (dropCommon_eq_nil_nil _ _ hdc)
        · intro x hx
          rcases List.mem_append.mp hx with hx | hx
          · have hx2 := List.eq_of_mem_replicate hx
            subst hx2; decide
          · exact cleanParts_ne_empty (dropCommon_snd_subset _ _ x hx)

/-- C1: on a local template source, when the template source directory and the
absolutized destination directory sit in the same git workspace, Download
returns is_canonical=true, location_type=local_git, canonical_source the
slash-separated relative path from the destination to the source, and version
the workspace's canonical git version; when either directory is outside a git
workspace or the workspaces differ, canonical_source, version and
location_type are all empty. -/
theorem Download_canonical (env : GitEnv) (d : LocalDownloader) (cwd destDir : String) :
    (∀ w gv v r, env.templateVars d.SrcPath = .ok gv →
      env.workspace d.SrcPath = .ok (some w) →
      env.workspace (absDestOf cwd destDir) = .ok (some w) →
      goRel (absDestOf cwd destDir) d.SrcPath = some r →
      env.canonicalVersion w d.allowDirty = .ok v →
      LocalDownloader.Download env d cwd destDir = .ok
        { IsCanonical := true, CanonicalSource := toSlash r,
          LocationType := LocTypeLocalGit,
          HasVersion := v != "", Version := v, Vars := gv }) ∧
    (∀ gv a b, env.templateVars d.SrcPath = .ok gv →
      env.workspace d.SrcPath = .ok a →
      env.workspace (absDestOf cwd destDir) = .ok b →
      sameWorkspace a b = false →
      LocalDownloader.Download env d cwd destDir = .ok
        { IsCanonical := false, CanonicalSource := "", LocationType := "",
          HasVersion := false, Version := "", Vars := gv }) := by
  constructor
  · intro w gv v r hgv hw1 hw2 hrel hver
    have hr : (toSlash r != "") = true := by
      simpa [toSlash, bne_iff_ne] using goRel_ne_empty hrel
    simp [LocalDownloader.Download, canonicalize, hgv, hw1, hw2, hrel, hver, hr]
  · intro gv a b hgv hw1 hw2 hsame
    cases a with
    | none =>
      cases b <;> simp [LocalDownloader.Download, canonicalize, hgv, hw1, hw2]
    | some x =>
      cases b with
      | none => simp [LocalDownloader.Download, canonicalize, hgv, hw1, hw2]
      | some y =>
        have hxy : x ≠ y := by simpa [sameWorkspace] using hsame
        simp [LocalDownloader.Download, canonicalize, hgv, hw1, hw2, hxy]

/-- Witness for C1: the spec's canonical-detection scenario, template at
/repo/t/foo and destination at /repo/out inside the workspace /repo with head
version S, plus a non-canonical scenario where the destination is outside any
workspace. -/
theorem Download_canonical_witness :
    LocalDownloader.Download
      { workspace := fun p => .ok (if p = "/repo/t/foo" ∨ p = "/repo/out" then some "/repo" else none),
        canonicalVersion := fun _ _ => .ok "S",
        templateVars := fun _ => .ok ⟨"", "S", "S"⟩ }
      { SrcPath := "/repo/t/foo" } "/repo" "out" = .ok
      { IsCanonical := true, CanonicalSource := "../t/foo", LocationType := "local_git",
        HasVersion := true, Version := "S", Vars := ⟨"", "S", "S"⟩ } ∧
    LocalDownloader.Download
      { workspace := fun p => .ok (if p = "/repo/t/foo" then some "/repo" else none),
        canonicalVersion := fun _ _ => .ok "S",
        templateVars := fun _ => .ok ⟨"", "S", "S"⟩ }
      { SrcPath := "/repo/t/foo" } "/repo" "out" = .ok
      { IsCanonical := false, CanonicalSource := "", LocationType := "",
        HasVersion := false, Version := "", Vars := ⟨"", "S", "S"⟩ } := by
  constructor
  · exact (Download_canonical
      { workspace := fun p => .ok (if p = "/repo/t/foo" ∨ p = "/repo/out" then some "/repo" else none),
        canonicalVersion := fun _ _ => .ok "S",
        templateVars := fun _ => .ok ⟨"", "S", "S"⟩ }
      { SrcPath := "/repo/t/foo" } "/repo" "out").1 "/repo" ⟨"", "S", "S"⟩ "S" "../t/foo"
      rfl rfl rfl rfl rfl
  · exact (Download_canonical
      { workspace := fun p => .ok (if p = "/repo/t/foo" then some "/repo" else none),
        canonicalVersion := fun _ _ => .ok "S",
        templateVars := fun _ => .ok ⟨"", "S", "S"⟩ }
      { SrcPath := "/repo/t/foo" } "/repo" "out").2 ⟨"", "S", "S"⟩ (some "/repo") none
      rfl rfl rfl rfl

/-- Every successful canonicalize result has its location type equal to
local_git exactly when the canonical source is non-empty. -/
theorem canonicalize_shape (env : GitEnv) (cwd src dest : String) (ad : Bool)
    (res : String × String × String) (h : canonicalize env cwd src dest ad = .ok res) :
    (res.1 = "" ∧ res.2.1 = "" ∧ res.2.2 = "") ∨
    (res.1 ≠ "" ∧ res.2.2 = LocTypeLocalGit) := by
  unfold canonicalize at h
  split at h
  · simp at h
  · split at h
    · simp at h
    · split at h
      · split at h
        · split at h
          · simp at h
          · split at h
            · simp at h
            · rename_i scr1 out hrel scr2 version hver
              right
              have hres := Except.ok.inj h
              subst hres
              refine ⟨?_, rfl⟩
              simpa [toSlash] using goRel_ne_empty hrel
        · left
          have hres := Except.ok.inj h
          subst hres
          exact ⟨rfl, rfl, rfl⟩
      · left
        have hres := Except.ok.inj h
        subst hres
        exact ⟨rfl, rfl, rfl⟩

/-- C2: every DownloadMetadata produced by LocalDownloader.Download satisfies
IsCanonical ↔ (CanonicalSource ≠ "" ∧ LocationType ≠ "") and
HasVersion ↔ Version ≠ "". -/
theorem Download_metadata_invariants (env : GitEnv) (d : LocalDownloader)
    (cwd destDir : String) (meta : DownloadMetadata)
    (h : LocalDownloader.Download env d cwd destDir = .ok meta) :
    (meta.IsCanonical = true ↔ (meta.CanonicalSource ≠ "" ∧ meta.LocationType ≠ "")) ∧
    (meta.HasVersion = true ↔ meta.Version ≠ "") := by
  unfold LocalDownloader.Download at h
  split at h
  · simp at h
  · split at h
    · simp at h
    · rename_i res hcanon
      have hmeta := Except.ok.inj h
      subst hmeta
      rcases canonicalize_shape env cwd d.SrcPath destDir d.allowDirty res hcanon with
        ⟨h1, h2, h3⟩ | ⟨h1, h2⟩
      · simp [h1, h2, h3]
      · constructor
        · simp [bne_iff_ne, h1, h2, LocTypeLocalGit]
        · simp [bne_iff_ne]

/-- Witness for C2 at the canonical concrete scenario of the C1 witness. -/
theorem Download_metadata_invariants_witness :
    ({ IsCanonical := true, CanonicalSource := "../t/foo", LocationType := "local_git",
       HasVersion := true, Version := "S",
       Vars := ⟨"", "S", "S"⟩ } : DownloadMetadata).IsCanonical = true ↔
      (("../t/foo" : String) ≠ "" ∧ ("local_git" : String) ≠ "") := by
  have h := (Download_metadata_invariants
    { workspace := fun p => .ok (if p = "/repo/t/foo" ∨ p = "/repo/out" then some "/repo" else none),
      canonicalVersion := fun _ _ => .ok "S",
      templateVars := fun _ => .ok ⟨"", "S", "S"⟩ }
    { SrcPath := "/repo/t/foo" } "/repo" "out"
    { IsCanonical := true, CanonicalSource := "../t/foo", LocationType := "local_git",
      HasVersion := true, Version := "S", Vars := ⟨"", "S", "S"⟩ }
    rfl).1
  exact h

/-- C9: localSourceParser.sourceParse returns "not matched" (no downloader,
false, no error) when the source path does not exist or is a regular file,
returns an error only when Stat fails otherwise, and returns a LocalDownloader
holding the absolutized source path when the path is an existing directory. -/
theorem sourceParse_behavior (stat : String → StatResult) (cwd source : String) :
    (stat (absSourceOf cwd source) = .notExist →
      sourceParse stat cwd source = .noMatch) ∧
    (stat (absSourceOf cwd source) = .file →
      sourceParse stat cwd source = .noMatch) ∧
    (∀ m, stat (absSourceOf cwd source) = .statFailed m →
      sourceParse stat cwd source = .failed ("Stat(): " ++ m)) ∧
    (stat (absSourceOf cwd source) = .dir →
      sourceParse stat cwd source =
        .matched { SrcPath := absSourceOf cwd source, allowDirty := false }) := by
  refine ⟨?_, ?_, ?_, ?_⟩ <;> intro h
  · simp [sourceParse, h]
  · simp [sourceParse, h]
  · intro hm; simp [sourceParse, hm]
  · simp [sourceParse, h]

/-- Witness for C9 at a concrete stat environment: a directory at
/cwd/tpl, a regular file at /cwd/file, nothing else exists. -/
theorem sourceParse_behavior_witness :
    sourceParse
        (fun p => if p = "/cwd/tpl" then .dir else if p = "/cwd/file" then .file else .notExist)
        "/cwd" "tpl" = .matched { SrcPath := "/cwd/tpl", allowDirty := false } ∧
    sourceParse
        (fun p => if p = "/cwd/tpl" then .dir else if p = "/cwd/file" then .file else .notExist)
        "/cwd" "file" = .noMatch ∧
    sourceParse
        (fun p => if p = "/cwd/tpl" then .dir else if p = "/cwd/file" then .file else .notExist)
        "/cwd" "absent" = .noMatch := by
  refine ⟨?_, ?_, ?_⟩
  · exact (sourceParse_behavior _ "/cwd" "tpl").2.2.2 (by decide)
  · exact (sourceParse_behavior _ "/cwd" "file").2.1 (by decide)
  · exact (sourceParse_behavior _ "/cwd" "absent").1 (by decide)

/-- find? returns the element at the first index whose predicate holds. -/
theorem find?_eq_of_first {α : Type} (p : α → Bool) :
    ∀ (l : List α) (i : Nat) (hi : i < l.length),
      (∀ k (hk : k < i), p (l.get ⟨k, Nat.lt_trans hk hi⟩) = false) →
      p (l.get ⟨i, hi⟩) = true →
      l.find? p = some (l.get ⟨i, hi⟩) := by
  intro l
  induction l with
  | nil => intro i hi; simp at hi
  | cons x xs ih =>
    intro i hi hbefore hp
    cases i with
    | zero =>
      exact List.find?_cons_of_pos _ hp
    | succ j =>
      have hx : p x = false := hbefore 0 (Nat.succ_pos j)
      rw [List.find?_cons_of_neg _ (by simp [hx])]
      exact ih j (Nat.lt_of_succ_lt_succ hi)
        (fun k hk => hbefore (k + 1) (Nat.succ_lt_succ hk)) hp

/-- Applying the per-path walks in sequence transforms each file once per
resolved path containing it. -/
theorem walk_foldl_iterate (transform : String → String) :
    ∀ (resolved : List String) (files : List (String × String)),
      resolved.foldl
        (fun fs root =>
          fs.map (fun fc => if underPath root fc.1 then (fc.1, transform fc.2) else fc))
        files
      = files.map (fun fc =>
          (fc.1, transform^[(resolved.filter (fun root => underPath root fc.1)).length] fc.2)) := by
  intro resolved
  induction resolved with
  | nil =>
    intro files
    simp
  | cons r rs ih =>
    intro files
    rw [List.foldl_cons, ih, List.map_map]
    apply List.map_congr_left
    intro fc _
    by_cases h : underPath r fc.1 = true
    · simp [h, List.filter_cons, Function.iterate_succ_apply]
    · rw [Bool.not_eq_true] at h
      simp [h, List.filter_cons]

/-- C3: actionStringReplace first expands every (to_replace, with) pair against
the scope (a failed expansion aborts the whole action), then builds one
multi-pattern replacer from all pairs and applies it in a single pass over the
contents of every file under each resolved path; when two patterns could start
a match at the same position, the pair listed earlier takes priority. -/
theorem actionStringReplace_spec {α : Type} (goTmpl : α → String → Except String String)
    (scope : α) (sr : StringReplace) (files : List (String × String)) :
    (∀ e, sr.Replacements.mapM (expandPair goTmpl scope) = .error e →
      actionStringReplace goTmpl scope sr files = .error e) ∧
    (∀ pairs resolved,
      sr.Replacements.mapM (expandPair goTmpl scope) = .ok pairs →
      sr.Paths.mapM (expandAndResolve goTmpl scope) = .ok resolved →
      actionStringReplace goTmpl scope sr files = .ok (files.map fun fc =>
        (fc.1,
          (replacerReplace pairs)^[(resolved.filter (fun root => underPath root fc.1)).length]
            fc.2))) ∧
    (∀ (pairs : List (String × String)) (i j : Nat) (hj : j < pairs.length)
        (hij : i < j) (pat rep : String) (c : Char) (rest : List Char),
      pairs.get ⟨i, Nat.lt_trans hij hj⟩ = (pat, rep) →
      pat.data.isPrefixOf (c :: rest) = true →
      (pairs.get ⟨j, hj⟩).1.data.isPrefixOf (c :: rest) = true →
      (∀ k (hk : k < i),
        (pairs.get ⟨k, Nat.lt_trans hk (Nat.lt_trans hij hj)⟩).1.data.isPrefixOf (c :: rest)
          = false) →
      pat.data ≠ [] →
      replaceAux pairs (c :: rest) =
        rep.data ++ replaceAux pairs (List.drop (pat.data.length - 1) rest)) := by
  refine ⟨?_, ?_, ?_⟩
  · intro e he
    unfold actionStringReplace
    rw [he]
  · intro pairs resolved hpairs hresolved
    unfold actionStringReplace
    rw [hpairs]
    dsimp only
    unfold walkAndModify
    rw [hresolved]
    dsimp only
    rw [walk_foldl_iterate]
  · intro pairs i j hj hij pat rep c rest hget hmi hmj hfirst hne
    have hfind : findPair pairs false (c :: rest) = some (pat, rep) := by
      unfold findPair
      rw [find?_eq_of_first _ pairs i (Nat.lt_trans hij hj) ?_ ?_]
      · rw [hget]
      · intro k hk
        simp only [Bool.false_and, Bool.not_false, Bool.true_and]
        exact hfirst k hk
      · rw [hget]
        simp [hmi]
    conv_lhs => rw [replaceAux.eq_def]
    simp only [hfind]
    rw [if_neg hne]

/-- Witness for C3: the template-identity expander, the two-pattern list where
"ab" is listed before "a", a two-file tree under the path ".", plus the
priority step at the position where both "ab" and "a" match. -/
theorem actionStringReplace_spec_witness :
    actionStringReplace (fun (_ : Unit) s => Except.ok s) ()
      { Paths := [{ val := "." }],
        Replacements := [
          { ToReplace := { val := "ab" }, With := { val := "X" } },
          { ToReplace := { val := "a" }, With := { val := "Y" } }] }
      [("f.txt", "abab"), ("sub/g.txt", "aa")] =
      .ok [("f.txt", "XX"), ("sub/g.txt", "YY")] ∧
    replaceAux [("ab", "X"), ("a", "Y")] ("ab".data) =
      "X".data ++ replaceAux [("ab", "X"), ("a", "Y")] [] := by
  constructor
  · have h := (actionStringReplace_spec (fun (_ : Unit) s => Except.ok s) ()
      { Paths := [{ val := "." }],
        Replacements := [
          { ToReplace := { val := "ab" }, With := { val := "X" } },
          { ToReplace := { val := "a" }, With := { val := "Y" } }] }
      [("f.txt", "abab"), ("sub/g.txt", "aa")]).2.1
      [("ab", "X"), ("a", "Y")] ["."] rfl rfl
    rw [h]
    simp [replacerReplace, replaceAux, findPair, underPath]
  · exact (actionStringReplace_spec (fun (_ : Unit) s => Except.ok s) ()
      { Paths := [], Replacements := [] } []).2.2
      [("ab", "X"), ("a", "Y")] 0 1 (by decide) (by decide) "ab" "X" 'a' "b".data
      rfl (by decide) (by decide) (fun k hk => absurd hk (Nat.not_lt_zero k)) (by decide)

/-- C8: validating a VarValue collects every field-level violation: with both
name and value empty the result reports both violations together, each
violation appears exactly when its field is empty, and Test.Validate
aggregates the violations of all input entries. -/
theorem VarValue_Validate_collects :
    (∀ v : VarValue, v.Name.val = "" → v.Value.val = "" →
      v.Validate = ["field name is required", "field value is required"]) ∧
    (∀ v : VarValue,
      ("field name is required" ∈ v.Validate ↔ v.Name.val = "") ∧
      ("field value is required" ∈ v.Validate ↔ v.Value.val = "")) ∧
    (∀ (t : Test) (v : VarValue), v ∈ t.Inputs → ∀ e ∈ v.Validate, e ∈ t.Validate) := by
  refine ⟨?_, ?_, ?_⟩
  · intro v h1 h2
    simp [VarValue.Validate, NotZeroModel, h1, h2]
  · intro v
    constructor
    · by_cases h1 : v.Name.val = "" <;>
        by_cases h2 : v.Value.val = "" <;>
        simp [VarValue.Validate, NotZeroModel, h1, h2]
    · by_cases h1 : v.Name.val = "" <;>
        by_cases h2 : v.Value.val = "" <;>
        simp [VarValue.Validate, NotZeroModel, h1, h2]
  · intro t v hv e he
    unfold Test.Validate ValidateEach
    rw [List.mem_flatten]
    exact ⟨v.Validate, List.mem_map_of_mem _ hv, he⟩

/-- Witness for C8: an input entry with both fields empty reports both
violations, and a test aggregates them. -/
theorem VarValue_Validate_collects_witness :
    VarValue.Validate { Name := { val := "" }, Value := { val := "" } } =
      ["field name is required", "field value is required"] ∧
    ("field value is required" ∈
      Test.Validate { Inputs := [{ Name := { val := "x" }, Value := { val := "" } }] }) := by
  constructor
  · exact VarValue_Validate_collects.1 _ rfl rfl
  · exact VarValue_Validate_collects.2.2
      { Inputs := [{ Name := { val := "x" }, Value := { val := "" } }] }
      { Name := { val := "x" }, Value := { val := "" } } (by simp)
      "field value is required" (by simp [VarValue.Validate, NotZeroModel])

/-- C10: getStdoutDiff treats a missing stdout file on either side as empty
content instead of failing: with no genuine read error it succeeds and
reports a diff exactly when the two (missing ↦ empty) texts differ — so both
sides absent, or identical text, verify cleanly — while a genuine read error
on either side aborts. -/
theorem getStdoutDiff_spec (golden temp : ReadResult) :
    ((∀ m, golden ≠ ReadResult.failed m) → (∀ m, temp ≠ ReadResult.failed m) →
      getStdoutDiff golden temp = .ok (DiffMain (contentOrEmpty temp) (contentOrEmpty golden)) ∧
      (hasDiff (DiffMain (contentOrEmpty temp) (contentOrEmpty golden)) = false ↔
        contentOrEmpty temp = contentOrEmpty golden)) ∧
    (∀ m, golden = ReadResult.failed m →
      getStdoutDiff golden temp = .error ("failed to read: " ++ m)) ∧
    (∀ m, (∀ m2, golden ≠ ReadResult.failed m2) → temp = ReadResult.failed m →
      getStdoutDiff golden temp = .error ("failed to read: " ++ m)) := by
  refine ⟨?_, ?_, ?_⟩
  · intro hg ht
    constructor
    · cases golden with
      | failed m => exact absurd rfl (hg m)
      | ok c =>
        cases temp with
        | failed m => exact absurd rfl (ht m)
        | ok c2 => rfl
        | notExist => rfl
      | notExist =>
        cases temp with
        | failed m => exact absurd rfl (ht m)
        | ok c2 => rfl
        | notExist => rfl
    · simp [hasDiff, DiffMain, bne_iff_ne]
  · intro m hm
    subst hm
    rfl
  · intro m hg hm
    subst hm
    cases golden with
    | failed m2 => exact absurd rfl (hg m2)
    | ok c => rfl
    | notExist => rfl

/-- Witness for C10: both sides absent verify cleanly; identical recorded and
rendered text verifies cleanly; a genuine read error aborts. -/
theorem getStdoutDiff_spec_witness :
    (getStdoutDiff .notExist .notExist = .ok (DiffMain "" "") ∧
      hasDiff (DiffMain "" "") = false) ∧
    (getStdoutDiff (.ok "Hello\n") (.ok "Hello\n") =
      .ok (DiffMain "Hello\n" "Hello\n") ∧ hasDiff (DiffMain "Hello\n" "Hello\n") = false) ∧
    getStdoutDiff (.failed "permission denied") .notExist =
      .error "failed to read: permission denied" := by
  refine ⟨⟨?_, ?_⟩, ⟨?_, ?_⟩, ?_⟩
  · exact ((getStdoutDiff_spec .notExist .notExist).1
      (fun m h => ReadResult.noConfusion h) (fun m h => ReadResult.noConfusion h)).1
  · exact ((getStdoutDiff_spec .notExist .notExist).1
      (fun m h => ReadResult.noConfusion h) (fun m h => ReadResult.noConfusion h)).2.mpr rfl
  · exact ((getStdoutDiff_spec (.ok "Hello\n") (.ok "Hello\n")).1
      (fun m h => ReadResult.noConfusion h) (fun m h => ReadResult.noConfusion h)).1
  · exact ((getStdoutDiff_spec (.ok "Hello\n") (.ok "Hello\n")).1
      (fun m h => ReadResult.noConfusion h) (fun m h => ReadResult.noConfusion h)).2.mpr rfl
  · exact (getStdoutDiff_spec (.failed "permission denied") .notExist).2.1
      "permission denied" rfl

theorem charListLe_total : ∀ a b : List Char, charListLe a b = true ∨ charListLe b a = true := by
  intro a
  induction a with
  | nil => intro b; left; rfl
  | cons x xs ih =>
    intro b
    cases b with
    | nil => right; rfl
    | cons y ys =>
      by_cases hxy : x = y
      · subst hxy
        rcases ih ys with h | h
        · left; simpa [charListLe] using h
        · right; simpa [charListLe] using h
      · rcases lt_or_gt_of_ne hxy with h | h
        · left; simp [charListLe, hxy, h]
        · right
          have hyx : y ≠ x := fun hcon => hxy hcon.symm
          simp [charListLe, hyx, h]

theorem charListLe_trans :
    ∀ a b c : List Char, charListLe a b = true → charListLe b c = true →
      charListLe a c = true := by
  intro a
  induction a with
  | nil => intro b c _ _; rfl
  | cons x xs ih =>
    intro b c hab hbc
    cases b with
    | nil => simp [charListLe] at hab
    | cons y ys =>
      cases c with
      | nil => simp [charListLe] at hbc
      | cons z zs =>
        by_cases hxy : x = y <;> by_cases hyz : y = z
        · subst hxy; subst hyz
          simp only [charListLe, if_pos rfl] at hab hbc ⊢
          exact ih ys zs hab hbc
        · subst hxy
          simp only [charListLe, if_neg hyz] at hbc
          have hlt : x < z := of_decide_eq_true hbc
          simp [charListLe, ne_of_lt hlt, hlt]
        · subst hyz
          simp only [charListLe, if_neg hxy] at hab
          have hlt : x < y := of_decide_eq_true hab
          simp [charListLe, ne_of_lt hlt, hlt]
        · simp only [charListLe, if_neg hxy] at hab
          simp only [charListLe, if_neg hyz] at hbc
          have hlt : x < z :=
            lt_trans (of_decide_eq_true hab) (of_decide_eq_true hbc)
          simp [charListLe, ne_of_lt hlt, hlt]

theorem mem_addTestFiles (dirFiles : List String) :
    ∀ (fileSet : List String) (p : String),
      p ∈ addTestFiles fileSet dirFiles ↔
        (p ∈ fileSet ∨ (p ∈ dirFiles ∧ IsReservedInDest p = false)) := by
  unfold addTestFiles
  induction dirFiles with
  | nil => intro fileSet p; simp
  | cons f fs ih =>
    intro fileSet p
    rw [List.foldl_cons, ih]
    by_cases hres : IsReservedInDest f
    · rw [if_pos hres]
      constructor
      · rintro (h | h)
        · exact Or.inl h
        · exact Or.inr ⟨List.mem_cons_of_mem _ h.1, h.2⟩
      · rintro (h | ⟨hmem, hp⟩)
        · exact Or.inl h
        · rcases List.mem_cons.mp hmem with h | h
          · subst h; rw [hres] at hp; cases hp
          · exact Or.inr ⟨h, hp⟩
    · rw [if_neg hres]
      by_cases hin : f ∈ fileSet
      · rw [if_pos hin]
        constructor
        · rintro (h | h)
          · exact Or.inl h
          · exact Or.inr ⟨List.mem_cons_of_mem _ h.1, h.2⟩
        · rintro (h | ⟨hmem, hp⟩)
          · exact Or.inl h
          · rcases List.mem_cons.mp hmem with h | h
            · subst h; exact Or.inl hin
            · exact Or.inr ⟨h, hp⟩
      · rw [if_neg hin]
        constructor
        · rintro (h | h)
          · rcases List.mem_append.mp h with h | h
            · exact Or.inl h
            · simp only [List.mem_singleton] at h
              subst h
              refine Or.inr ⟨List.mem_cons_self _ _, ?_⟩
              rw [Bool.not_eq_true] at hres
              exact hres
          · exact Or.inr ⟨List.mem_cons_of_mem _ h.1, h.2⟩
        · rintro (h | ⟨hmem, hp⟩)
          · exact Or.inl (List.mem_append_left _ h)
          · rcases List.mem_cons.mp hmem with h | h
            · subst h; exact Or.inl (List.mem_append_right _ (by simp))
            · exact Or.inr ⟨h, hp⟩

theorem lookup_eq_none_iff (l : List (String × String)) (p : String) :
    List.lookup p l = none ↔ ¬ p ∈ l.map Prod.fst := by
  induction l with
  | nil => simp
  | cons fc rest ih =>
    rw [List.lookup_cons]
    by_cases h : p = fc.1
    · subst h
      simp
    · have hbeq : (p == fc.1) = false := by
        rw [beq_eq_false_iff_ne]
        exact h
      rw [hbeq]
      simp only [List.map_cons, List.mem_cons, ih]
      constructor
      · intro hn hc
        rcases hc with hc | hc
        · exact h hc
        · exact hn hc
      · intro hn
        intro hc
        exact hn (Or.inr hc)

/-- C7: golden-test verification compares the union of the relative paths of
the recorded golden data dir and the freshly rendered temp dir, iterating in
sorted order; every path under the top-level .abc/ dir is excluded from the
file comparison (the recorded stdout under .abc is compared separately); a
file present on only one side is a mismatch. -/
theorem verifyTestCase_spec (golden temp : List (String × String)) :
    (∀ p, p ∈ (verifyTestCase golden temp).relPaths ↔
      ((p ∈ golden.map Prod.fst ∨ p ∈ temp.map Prod.fst) ∧ IsReservedInDest p = false)) ∧
    List.Pairwise (fun a b : String => strLe a b = true) (verifyTestCase golden temp).relPaths ∧
    (∀ p, IsReservedInDest p = false →
      p ∈ golden.map Prod.fst → ¬ p ∈ temp.map Prod.fst →
      p ∈ (verifyTestCase golden temp).mismatches) ∧
    (∀ p, IsReservedInDest p = false →
      p ∈ temp.map Prod.fst → ¬ p ∈ golden.map Prod.fst →
      p ∈ (verifyTestCase golden temp).mismatches) ∧
    ((verifyTestCase golden temp).stdoutMismatch = true ↔
      contentOrEmpty (readStdout temp) ≠ contentOrEmpty (readStdout golden)) := by
  have hmem : ∀ p, p ∈ (verifyTestCase golden temp).relPaths ↔
      ((p ∈ golden.map Prod.fst ∨ p ∈ temp.map Prod.fst) ∧ IsReservedInDest p = false) := by
    intro p
    unfold verifyTestCase sortStrings
    dsimp only
    rw [(List.perm_insertionSort _ _).mem_iff, mem_addTestFiles, mem_addTestFiles]
    simp only [List.not_mem_nil, false_or]
    tauto
  refine ⟨hmem, ?_, ?_, ?_, ?_⟩
  · unfold verifyTestCase sortStrings
    dsimp only
    haveI : IsTotal String (fun a b => strLe a b = true) :=
      ⟨fun a b => charListLe_total a.data b.data⟩
    haveI : IsTrans String (fun a b => strLe a b = true) :=
      ⟨fun a b c => charListLe_trans a.data b.data c.data⟩
    exact List.sorted_insertionSort (fun a b : String => strLe a b = true)
      (addTestFiles (addTestFiles [] (golden.map Prod.fst)) (temp.map Prod.fst))
  · intro p hres hg ht
    have hp : p ∈ (verifyTestCase golden temp).relPaths := (hmem p).mpr ⟨Or.inl hg, hres⟩
    show p ∈ (verifyTestCase golden temp).relPaths.filter (fileMismatch golden temp)
    rw [List.mem_filter]
    refine ⟨hp, ?_⟩
    unfold fileMismatch
    rw [(lookup_eq_none_iff temp p).mpr ht]
    cases List.lookup p golden <;> rfl
  · intro p hres ht hg
    have hp : p ∈ (verifyTestCase golden temp).relPaths := (hmem p).mpr ⟨Or.inr ht, hres⟩
    show p ∈ (verifyTestCase golden temp).relPaths.filter (fileMismatch golden temp)
    rw [List.mem_filter]
    refine ⟨hp, ?_⟩
    unfold fileMismatch
    rw [(lookup_eq_none_iff golden p).mpr hg]
  · show (match getStdoutDiff (readStdout golden) (readStdout temp) with
      | .ok d => hasDiff d
      | .error _ => true) = true ↔ _
    have h := ((getStdoutDiff_spec (readStdout golden) (readStdout temp)).1
      ?_ ?_)
    · rw [h.1]
      simp [hasDiff, DiffMain, bne_iff_ne]
    · intro m
      unfold readStdout
      cases List.lookup stdoutRelPath golden <;> simp
    · intro m
      unfold readStdout
      cases List.lookup stdoutRelPath temp <;> simp

/-- Witness for C7 on a concrete pair of trees: `.abc/stdout` is excluded
from the file comparison, the compared paths come sorted, and `b.txt`,
present only in the golden tree, is a mismatch. -/
theorem verifyTestCase_spec_witness :
    (¬ stdoutRelPath ∈ (verifyTestCase
        [("b.txt", "bee"), ("a.txt", "hello"), (stdoutRelPath, "Hello\n")]
        [("a.txt", "hello")]).relPaths) ∧
    ("b.txt" ∈ (verifyTestCase
        [("b.txt", "bee"), ("a.txt", "hello"), (stdoutRelPath, "Hello\n")]
        [("a.txt", "hello")]).mismatches) ∧
    (verifyTestCase
        [("b.txt", "bee"), ("a.txt", "hello"), (stdoutRelPath, "Hello\n")]
        [("a.txt", "hello")]).relPaths = ["a.txt", "b.txt"] := by
  refine ⟨?_, ?_, ?_⟩
  · intro hmem
    have h := ((verifyTestCase_spec
        [("b.txt", "bee"), ("a.txt", "hello"), (stdoutRelPath, "Hello\n")]
        [("a.txt", "hello")]).1 stdoutRelPath).mp hmem
    exact absurd h.2 (by decide)
  · exact (verifyTestCase_spec
        [("b.txt", "bee"), ("a.txt", "hello"), (stdoutRelPath, "Hello\n")]
        [("a.txt", "hello")]).2.2.1 "b.txt" (by decide) (by decide) (by decide)
  · decide

/-- C4: a non-dry writeManifest writes the manifest as a YAML file named
.abc/manifest_<location-slug>_<timestamp>.lock.yaml under the destination,
the slug being the canonical source URL-encoded or the literal "nolocation"
when the render is non-canonical (which still gets a manifest); and the
serialized inputs come sorted by input name. -/
theorem writeManifest_spec (p : WriteManifestParams) :
    (p.dryRun = false →
      writeManifest p = p.destDirContents ++
        [(".abc/manifest_" ++
            (if p.dlMeta.IsCanonical then urlEncode p.dlMeta.CanonicalSource
             else "nolocation") ++
            "_" ++ formatRFC3339Nano p.clock.utc ++ ".lock.yaml",
          manifestYAML p)]) ∧
    List.Pairwise (fun a b : String × String => strLe a.1 b.1 = true) (sortByName p.inputs) ∧
    (sortByName p.inputs).Perm p.inputs := by
  refine ⟨?_, ?_, ?_⟩
  · intro h
    unfold writeManifest manifestFileName manifestLocationSlug
    rw [h]
    rfl
  · haveI : IsTotal (String × String) (fun a b => strLe a.1 b.1 = true) :=
      ⟨fun a b => charListLe_total a.1.data b.1.data⟩
    haveI : IsTrans (String × String) (fun a b => strLe a.1 b.1 = true) :=
      ⟨fun a b c => charListLe_trans a.1.data b.1.data c.1.data⟩
    exact List.sorted_insertionSort _ _
  · exact List.perm_insertionSort _ _

/-- Witness for C4: the two success cases of TestWriteManifest; the inputs
given as pizza-then-pineapple serialize as pineapple-then-pizza, and the
non-canonical render still gets a manifest named with "nolocation". -/
theorem writeManifest_spec_witness :
    writeManifest manifestParamsCanonical =
      [("a.txt", "some other stuff"),
       (".abc/manifest_github.com%2Ffoo%2Fbar_2023-12-08T23:59:02.000000013Z.lock.yaml",
        expectedCanonicalYAML)] ∧
    writeManifest manifestParamsNonCanonical =
      [("a.txt", "some other stuff"),
       (".abc/manifest_nolocation_2023-12-08T23:59:02.000000013Z.lock.yaml",
        expectedNonCanonicalYAML)] := by
  constructor
  · rw [(writeManifest_spec manifestParamsCanonical).1 rfl]
    decide
  · rw [(writeManifest_spec manifestParamsNonCanonical).1 rfl]
    decide

/-- C5: the manifest's creation_time and modification_time are the supplied
clock time converted to UTC in RFC3339 form with nanosecond precision: the
output depends only on the clock's absolute instant, never on its display
zone, and the serialized timestamps are the UTC rendering of that instant. -/
theorem writeManifest_utc_serialization (p : WriteManifestParams) :
    (∀ t2 : GoTime, p.clock.instantSec = t2.instantSec → p.clock.nsec = t2.nsec →
      writeManifest p = writeManifest { p with clock := t2 }) ∧
    (∃ pre post : String, manifestYAML p =
      pre ++ "creation_time: " ++
        formatRFC3339Nano
          { instantSec := p.clock.instantSec, nsec := p.clock.nsec, offsetMin := 0 } ++
      "\n" ++ "modification_time: " ++
        formatRFC3339Nano
          { instantSec := p.clock.instantSec, nsec := p.clock.nsec, offsetMin := 0 } ++
      "\n" ++ post) := by
  constructor
  · intro t2 h1 h2
    have hutc : p.clock.utc = t2.utc := by
      show (⟨p.clock.instantSec, p.clock.nsec, 0⟩ : GoTime) = ⟨t2.instantSec, t2.nsec, 0⟩
      rw [h1, h2]
    unfold writeManifest manifestFileName manifestYAML
    rw [hutc]
  · refine ⟨"# Generated by the \"abc templates\" command. Do not modify.\n" ++
      "api_version: cli.abcxyz.dev/v1beta3\n" ++ "kind: Manifest\n",
      "template_location: " ++ yamlScalar p.dlMeta.CanonicalSource ++ "\n" ++
      "location_type: " ++ yamlScalar p.dlMeta.LocationType ++ "\n" ++
      "template_version: " ++ yamlScalar p.dlMeta.Version ++ "\n" ++
      "template_dirhash: " ++ p.templateDirhash ++ "\n" ++
      manifestInputsYAML p.inputs ++ manifestOutputsYAML p.outputHashes, ?_⟩
    simp only [manifestYAML, String.append_assoc]
    rfl

/-- Witness for C5: the mock clock of the manifest test — 15:59:02.000000013
in a UTC-8 zone — serializes as 23:59:02.000000013 UTC, and writeManifest
cannot tell it apart from the same instant expressed directly in UTC. -/
theorem writeManifest_utc_serialization_witness :
    writeManifest manifestParamsCanonical =
      writeManifest { manifestParamsCanonical with clock := mkGoTime 2023 12 8 23 59 2 13 0 } ∧
    formatRFC3339Nano (mkGoTime 2023 12 8 15 59 2 13 (-480)).utc =
      "2023-12-08T23:59:02.000000013Z" ∧
    formatRFC3339Nano (mkGoTime 2023 12 8 15 59 2 13 (-480)) =
      "2023-12-08T15:59:02.000000013-08:00" := by
  refine ⟨?_, ?_, ?_⟩
  · exact (writeManifest_utc_serialization manifestParamsCanonical).1
      (mkGoTime 2023 12 8 23 59 2 13 0) (by decide) (by decide)
  · decide
  · decide

/-- C6: with dryRun=true, writeManifest writes no manifest file and leaves
the destination contents exactly as they were. -/
theorem writeManifest_dryRun_pure (p : WriteManifestParams) (h : p.dryRun = true) :
    writeManifest p = p.destDirContents ∧
    (∀ f, f ∈ writeManifest p ↔ f ∈ p.destDirContents) := by
  have he : writeManifest p = p.destDirContents := by
    unfold writeManifest
    rw [h]
    rfl
  exact ⟨he, fun f => by rw [he]⟩

/-- Witness for C6: the dryrun_no_output case of TestWriteManifest — the
destination keeps exactly its prior contents. -/
theorem writeManifest_dryRun_pure_witness :
    writeManifest manifestParamsDryRun = [("a.txt", "some other stuff")] ∧
    (("a.txt", "some other stuff") ∈ writeManifest manifestParamsDryRun ↔
      ("a.txt", "some other stuff") ∈ manifestParamsDryRun.destDirContents) := by
  constructor
  · exact (writeManifest_dryRun_pure manifestParamsDryRun rfl).1
  · exact (writeManifest_dryRun_pure manifestParamsDryRun rfl).2 ("a.txt", "some other stuff")

end Spec2Proof
